import Mathlib

/-!
Verification of the ResumeAI multi-agent screener batch pipeline.

The development shallowly embeds the core pipeline of the repository:

* `distributeFiles` from `src/utils/helpers.ts` (round-robin partitioner),
* `processBatch` from `src/App.tsx` (the per-worker sequential loop),
* `startAnalysis` from `src/App.tsx` (the batch coordinator entrypoint),
* `analyzeResume` / `makeRequestWithRetry` from `src/services/geminiService.ts`
  (the scorer call with bounded exponential-backoff retry and its
  synthetic fallback result).

External effects (file extraction, the Gemini network call, JSON parsing)
are abstracted as environment parameters supplying the outcome of each
call, so every branch of the source control flow is represented.
-/

namespace ResumeAI

open List

/-- Status of one uploaded file (`FileWithId.status` in `src/types.ts`). -/
inductive FileStatus where
  | pending
  | processing
  | completed
  | error
  | rejected
deriving Repr, DecidableEq

/-- Structured outcome of the Scorer (`AnalysisResult` in `src/types.ts`,
together with the two extra fields `educationMatch` and
`nonMandatorySkillsCount` that the runtime objects built in
`src/services/geminiService.ts` and `src/App.tsx` carry). -/
structure AnalysisResult where
  candidateName : String
  matchStatus : Bool
  matchScore : Int
  reason : String
  educationMatch : String
  nonMandatorySkillsCount : Int
  mandatorySkillsFound : List String
  mandatorySkillsMissing : List String
  optionalSkillsFound : List String
  isAiGenerated : Bool
  aiGenerationReasoning : String
deriving Repr, DecidableEq

/-- One uploaded document plus its mutable processing state
(`FileWithId` in `src/types.ts`; the binary file handle is abstracted,
only the name is kept). -/
structure WorkItem where
  id : String
  name : String
  status : FileStatus
  result : Option AnalysisResult
deriving Repr, DecidableEq

/-- Worker status (`AgentState.status` in `src/types.ts`). -/
inductive AgentStatus where
  | idle
  | working
  | completed
deriving Repr, DecidableEq

/-- Per-worker observable snapshot (`AgentState` in `src/types.ts`).
`progress` is kept as an exact rational number. -/
structure AgentState where
  id : Nat
  name : String
  status : AgentStatus
  progress : ℚ
  totalAssigned : Nat
  processedCount : Nat
  currentFileName : Option String
  candidatesFound : Nat
deriving Repr, DecidableEq

instance : Inhabited AgentState := ⟨⟨0, "", .idle, 0, 0, 0, none, 0⟩⟩

instance : Inhabited WorkItem := ⟨⟨"", "", .pending, none⟩⟩

/-! ### The partitioner (`distributeFiles`, `src/utils/helpers.ts`)

```ts
export const distributeFiles = (files: FileWithId[], agentCount: number): FileWithId[][] => {
  const chunks: FileWithId[][] = Array.from({ length: agentCount }, () => []);
  files.forEach((file, index) => {
    chunks[index % agentCount].push(file);
  });
  return chunks;
};
```
-/

/-- `distributeFiles` from `src/utils/helpers.ts`: make `agentCount` empty
chunks, then push the file at input index `i` onto chunk `i % agentCount`. -/
def distributeFiles (files : List α) (agentCount : Nat) : List (List α) :=
  files.enum.foldl
    (fun chunks p =>
      chunks.set (p.1 % agentCount) (chunks.getD (p.1 % agentCount) [] ++ [p.2]))
    (List.replicate agentCount [])

/-- The chunk round-robin assignment should produce for worker `j`: the input
items whose index is congruent to `j` modulo `N`, in input order. -/
def chunkSpec (files : List α) (N j : Nat) : List α :=
  (files.enum.filter (fun p => p.1 % N == j)).map Prod.snd

theorem distributeFiles_concat (D : List α) (x : α) (N : Nat) :
    distributeFiles (D ++ [x]) N =
      (distributeFiles D N).set (D.length % N)
        ((distributeFiles D N).getD (D.length % N) [] ++ [x]) := by
  unfold distributeFiles
  rw [List.enum_append, List.foldl_append]
  simp [List.enumFrom]

theorem length_distributeFiles (D : List α) (N : Nat) :
    (distributeFiles D N).length = N := by
  induction D using List.reverseRecOn with
  | nil => simp [distributeFiles]
  | append_singleton D x ih =>
      rw [distributeFiles_concat, List.length_set, ih]

theorem chunkSpec_concat (D : List α) (x : α) (N j : Nat) :
    chunkSpec (D ++ [x]) N j =
      chunkSpec D N j ++ (if D.length % N = j then [x] else []) := by
  unfold chunkSpec
  rw [List.enum_append, List.filter_append, List.map_append]
  congr 1
  simp only [List.enumFrom, List.filter]
  by_cases h : D.length % N = j
  · simp [beq_iff_eq, h]
  · rw [show (D.length % N == j) = false from beq_eq_false_iff_ne.mpr h]
    simp
    exact h

theorem distributeFiles_getD (D : List α) (N j : Nat) (hN : 0 < N) (hj : j < N) :
    (distributeFiles D N).getD j [] = chunkSpec D N j := by
  induction D using List.reverseRecOn with
  | nil =>
      simp [distributeFiles, chunkSpec, List.getD_eq_getElem?_getD,
        List.getElem?_replicate, hj]
  | append_singleton D x ih =>
      rw [distributeFiles_concat, chunkSpec_concat]
      have hlen : (distributeFiles D N).length = N := length_distributeFiles D N
      by_cases h : D.length % N = j
      · subst h
        rw [List.getD_eq_getElem?_getD, List.getElem?_set_self (by omega),
          Option.getD_some, ih, if_pos rfl]
      · rw [List.getD_eq_getElem?_getD, List.getElem?_set_ne (by omega),
          ← List.getD_eq_getElem?_getD, ih, if_neg h, List.append_nil]

theorem modCountStep (L N j : Nat) (hN : 0 < N) (hj : j < N) :
    (L + 1) / N + (if j < (L + 1) % N then 1 else 0) =
      L / N + (if j < L % N then 1 else 0) + (if L % N = j then 1 else 0) := by
  have hm : L % N < N := Nat.mod_lt _ hN
  have hdm : N * (L / N) + L % N = L := Nat.div_add_mod L N
  rcases Nat.lt_or_ge (L % N + 1) N with h | h
  · have h1 : L + 1 = N * (L / N) + (L % N + 1) := by omega
    have h2 : (L + 1) % N = L % N + 1 := by
      rw [h1, Nat.mul_add_mod]; exact Nat.mod_eq_of_lt h
    have h3 : (L + 1) / N = L / N := by
      rw [h1, Nat.mul_add_div hN, Nat.div_eq_of_lt h, Nat.add_zero]
    rw [h2, h3]; split_ifs <;> omega
  · have heq : L % N + 1 = N := by omega
    have hmul : N * (L / N + 1) = N * (L / N) + N := Nat.mul_succ N (L / N)
    have h1 : L + 1 = N * (L / N + 1) := by omega
    have h2 : (L + 1) % N = 0 := by rw [h1, Nat.mul_mod_right]
    have h3 : (L + 1) / N = L / N + 1 := by
      rw [h1, Nat.mul_div_cancel_left _ hN]
    rw [h2, h3]; split_ifs <;> omega

theorem chunkSpec_length (D : List α) (N j : Nat) (hN : 0 < N) (hj : j < N) :
    (chunkSpec D N j).length =
      D.length / N + (if j < D.length % N then 1 else 0) := by
  induction D using List.reverseRecOn with
  | nil => simp [chunkSpec, Nat.zero_div, Nat.zero_mod]
  | append_singleton D x ih =>
      rw [chunkSpec_concat, List.length_append, ih, List.length_append,
        List.length_singleton]
      have := modCountStep D.length N j hN hj
      by_cases h : D.length % N = j <;> simp [h] at this ⊢ <;> omega

theorem flatten_set_perm (c : List (List α)) (j : Nat) (x : α) (hj : j < c.length) :
    (c.set j (c.getD j [] ++ [x])).flatten.Perm (c.flatten ++ [x]) := by
  induction c generalizing j with
  | nil => simp at hj
  | cons a cs ih =>
      cases j with
      | zero =>
          simp only [List.set_cons_zero, List.getD_cons_zero, List.flatten_cons]
          calc (a ++ [x]) ++ cs.flatten
              = a ++ ([x] ++ cs.flatten) := by rw [List.append_assoc]
            _ ~ a ++ (cs.flatten ++ [x]) := List.Perm.append_left a List.perm_append_comm
            _ = (a ++ cs.flatten) ++ [x] := (List.append_assoc ..).symm
      | succ j =>
          simp only [List.set_cons_succ, List.getD_cons_succ, List.flatten_cons]
          calc a ++ (cs.set j (cs.getD j [] ++ [x])).flatten
              ~ a ++ (cs.flatten ++ [x]) :=
                List.Perm.append_left a (ih j (by simpa using hj))
            _ = (a ++ cs.flatten) ++ [x] := (List.append_assoc ..).symm

theorem flatten_replicate_nil (N : Nat) :
    (List.replicate N ([] : List α)).flatten = [] := by
  induction N with
  | zero => rfl
  | succ n ih => simp [List.replicate_succ, ih]

theorem distributeFiles_flatten_perm (D : List α) (N : Nat) (hN : 0 < N) :
    (distributeFiles D N).flatten.Perm D := by
  induction D using List.reverseRecOn with
  | nil => simp [distributeFiles, flatten_replicate_nil]
  | append_singleton D x ih =>
      rw [distributeFiles_concat]
      calc (( distributeFiles D N).set (D.length % N)
              ((distributeFiles D N).getD (D.length % N) [] ++ [x])).flatten
          ~ (distributeFiles D N).flatten ++ [x] :=
            flatten_set_perm _ _ _
              (by rw [length_distributeFiles]; exact Nat.mod_lt _ hN)
        _ ~ D ++ [x] := ih.append_right [x]

theorem distributeFiles_mem (D : List α) (N i : Nat) (hN : 0 < N)
    (hi : i < D.length) :
    D.get ⟨i, hi⟩ ∈ (distributeFiles D N).getD (i % N) [] := by
  rw [distributeFiles_getD D N (i % N) hN (Nat.mod_lt _ hN)]
  refine List.mem_map.mpr ⟨(i, D.get ⟨i, hi⟩), List.mem_filter.mpr ⟨?_, ?_⟩, rfl⟩
  · exact List.mk_mem_enum_iff_getElem?.mpr
      (by simp [List.getElem?_eq_getElem hi, List.get_eq_getElem])
  · simp

/-- **C1**: for every list of documents `D` and every `workerCount` `N > 0`,
`distributeFiles D N` returns exactly `N` partitions, the document at input
index `i` appears in partition `i % N`, each partition is exactly the ordered
round-robin slice of the input (hence preserves input order), every document
appears in exactly one partition overall (the flattened partitions are a
permutation of `D`), partition sizes differ by at most 1, and an empty `D`
yields `N` empty partitions. -/
theorem distributeFiles_spec (α : Type) (D : List α) (N : Nat) (hN : 0 < N) :
    (distributeFiles D N).length = N ∧
    (∀ j, j < N → (distributeFiles D N).getD j [] = chunkSpec D N j) ∧
    (∀ i (hi : i < D.length),
      D.get ⟨i, hi⟩ ∈ (distributeFiles D N).getD (i % N) []) ∧
    (distributeFiles D N).flatten.Perm D ∧
    (∀ j k, j < N → k < N →
      ((distributeFiles D N).getD j []).length ≤
        ((distributeFiles D N).getD k []).length + 1) ∧
    (D = [] → distributeFiles D N = List.replicate N []) := by
  refine ⟨length_distributeFiles D N,
    fun j hj => distributeFiles_getD D N j hN hj,
    fun i hi => distributeFiles_mem D N i hN hi,
    distributeFiles_flatten_perm D N hN, ?_, ?_⟩
  · intro j k hj hk
    rw [distributeFiles_getD D N j hN hj, distributeFiles_getD D N k hN hk,
      chunkSpec_length D N j hN hj, chunkSpec_length D N k hN hk]
    split_ifs <;> omega
  · rintro rfl
    rfl

/-- Witness for C1 at a concrete input: three documents, two workers. -/
theorem distributeFiles_spec_witness :
    0 < 2 ∧
    ((distributeFiles [10, 20, 30] 2).length = 2 ∧
    (∀ j, j < 2 → (distributeFiles [10, 20, 30] 2).getD j [] = chunkSpec [10, 20, 30] 2 j) ∧
    (∀ i (hi : i < ([10, 20, 30] : List Nat).length),
      ([10, 20, 30] : List Nat).get ⟨i, hi⟩ ∈ (distributeFiles [10, 20, 30] 2).getD (i % 2) []) ∧
    (distributeFiles [10, 20, 30] 2).flatten.Perm [10, 20, 30] ∧
    (∀ j k, j < 2 → k < 2 →
      ((distributeFiles [10, 20, 30] 2).getD j []).length ≤
        ((distributeFiles [10, 20, 30] 2).getD k []).length + 1) ∧
    (([10, 20, 30] : List Nat) = [] → distributeFiles [10, 20, 30] 2 = List.replicate 2 [])) :=
  ⟨by decide, distributeFiles_spec Nat [10, 20, 30] 2 (by decide)⟩

/-! ### The worker loop (`processBatch`, `src/App.tsx`)

`processBatch(agentIndex, batch)` marks the agent `working` with
`totalAssigned = batch.length` and zeroed counters, then loops over the batch
in order.  Per item it publishes `currentFileName`, extracts content, paces,
calls `analyzeResume`, and on success records the result with status
`completed` and updates the agent counters; any throw from the `try` block
lands in the `catch` block, which sets the item's status to `error`, records
a synthetic error result, and touches no agent counter.  After the loop the
agent is marked `completed` and `currentFileName` cleared. -/

/-- Environment-supplied outcome of processing one item inside the worker
loop of `processBatch` (`src/App.tsx`): either extraction succeeded and
`analyzeResume` returned result `r`, or extraction threw with message `msg`,
landing in the loop's `catch` block. -/
inductive ItemOutcome where
  | ok (r : AnalysisResult)
  | extractError (msg : String)
deriving Repr, DecidableEq

/-- The synthetic error result recorded by the `catch` block of
`processBatch` in `src/App.tsx`. -/
def appErrorResult (msg : String) : AnalysisResult :=
  { candidateName := "Error"
    matchStatus := false
    matchScore := 0
    reason := "Error: " ++ msg
    educationMatch := "None"
    nonMandatorySkillsCount := 0
    mandatorySkillsFound := []
    mandatorySkillsMissing := []
    optionalSkillsFound := []
    isAiGenerated := false
    aiGenerationReasoning := "Error" }

/-- Observable events of one worker loop, used to state ordering claims:
`beginExtract k` marks the start of content extraction for the `k`-th item of
the partition, `record k` the moment its result (success or synthetic error)
is recorded on the item. -/
inductive Ev where
  | beginExtract (k : Nat)
  | record (k : Nat)
deriving Repr, DecidableEq

/-- The `setAgents` update on the success path of the loop body of
`processBatch`: increment `processedCount`, recompute `progress` as
`(processedCount + 1) / totalAssigned * 100`, and increment
`candidatesFound` iff the result's `matchStatus` is true. -/
def successUpdate (a : AgentState) (r : AnalysisResult) : AgentState :=
  { a with
    processedCount := a.processedCount + 1
    progress := ((a.processedCount + 1 : ℚ) / (a.totalAssigned : ℚ)) * 100
    candidatesFound :=
      if r.matchStatus then a.candidatesFound + 1 else a.candidatesFound }

/-- Output of the worker loop over the remaining items: the successively
published `AgentState` snapshots, the final item records (in partition
order), the event trace, and the agent state after the loop. -/
structure LoopOut where
  states : List AgentState
  items : List WorkItem
  events : List Ev
  aEnd : AgentState
deriving Repr, DecidableEq

/-- The `for` loop of `processBatch` (`src/App.tsx`), itemized over the
partition starting at item index `k`.  Per item: publish `currentFileName`;
on success (`ItemOutcome.ok r`) record `{status := completed, result := r}`
and publish `successUpdate`; on an extraction error record
`{status := error, result := appErrorResult msg}` and leave the agent
counters untouched (the source's `catch` block only updates `files`). -/
def runItems (a : AgentState) (k : Nat) :
    List (WorkItem × ItemOutcome) → LoopOut
  | [] => ⟨[], [], [], a⟩
  | (w, out) :: rest =>
    let a1 := { a with currentFileName := some w.name }
    match out with
    | .ok r =>
        let a2 := successUpdate a1 r
        let res := runItems a2 (k + 1) rest
        ⟨a1 :: a2 :: res.states,
         { w with status := .completed, result := some r } :: res.items,
         .beginExtract k :: .record k :: res.events,
         res.aEnd⟩
    | .extractError msg =>
        let res := runItems a1 (k + 1) rest
        ⟨a1 :: res.states,
         { w with status := .error, result := some (appErrorResult msg) } :: res.items,
         .beginExtract k :: .record k :: res.events,
         res.aEnd⟩

/-- Result of one worker (`processBatch` in `src/App.tsx`). -/
structure BatchResult where
  agentStates : List AgentState
  items : List WorkItem
  finalAgent : AgentState
  events : List Ev
deriving Repr, DecidableEq

/-- `processBatch` from `src/App.tsx`: set the agent `working` with
`totalAssigned := batch.length` and zeroed counters (`candidatesFound` is
not reset here, matching the source), run the loop over all items, then mark
the agent `completed` and clear `currentFileName`. -/
def processBatch (a : AgentState) (batch : List (WorkItem × ItemOutcome)) :
    BatchResult :=
  let aInit := { a with
    status := AgentStatus.working
    totalAssigned := batch.length
    processedCount := 0
    progress := 0 }
  let res := runItems aInit 0 batch
  let aFinal := { res.aEnd with
    status := AgentStatus.completed
    currentFileName := none }
  { agentStates := aInit :: res.states ++ [aFinal]
    items := res.items
    finalAgent := aFinal
    events := res.events }

theorem runItems_items_length (batch : List (WorkItem × ItemOutcome))
    (a : AgentState) (k : Nat) :
    (runItems a k batch).items.length = batch.length := by
  induction batch generalizing a k with
  | nil => rfl
  | cons p rest ih =>
      obtain ⟨w, out⟩ := p
      cases out with
      | ok r => simp [runItems, ih]
      | extractError msg => simp [runItems, ih]

theorem runItems_items_terminal (batch : List (WorkItem × ItemOutcome))
    (a : AgentState) (k : Nat) (w : WorkItem)
    (hw : w ∈ (runItems a k batch).items) :
    w.result.isSome ∧
      (w.status = FileStatus.completed ∨ w.status = FileStatus.error) := by
  induction batch generalizing a k with
  | nil => simp [runItems] at hw
  | cons p rest ih =>
      obtain ⟨w', out⟩ := p
      cases out with
      | ok r =>
          simp only [runItems, List.mem_cons] at hw
          rcases hw with rfl | hw
          · exact ⟨rfl, Or.inl rfl⟩
          · exact ih _ _ hw
      | extractError msg =>
          simp only [runItems, List.mem_cons] at hw
          rcases hw with rfl | hw
          · exact ⟨rfl, Or.inr rfl⟩
          · exact ih _ _ hw

/-- **C2**: for every partition and every assignment of per-item outcomes
(including extraction and scoring failures), the worker loop never
terminates early: every item of the partition ends with a recorded result
and a terminal status, and the worker's `AgentState` still reaches status
`completed` at the end of the loop. -/
theorem processBatch_failure_isolation (a : AgentState)
    (batch : List (WorkItem × ItemOutcome)) :
    (processBatch a batch).finalAgent.status = AgentStatus.completed ∧
    (processBatch a batch).items.length = batch.length ∧
    ∀ w ∈ (processBatch a batch).items,
      w.result.isSome ∧
        (w.status = FileStatus.completed ∨ w.status = FileStatus.error) := by
  refine ⟨rfl, ?_, ?_⟩
  · simpa [processBatch] using runItems_items_length batch _ 0
  · intro w hw
    exact runItems_items_terminal batch _ 0 w (by simpa [processBatch] using hw)

/-- What the loop body of `processBatch` records on an item, as a function of
its outcome: on success, status `completed` with the result; in the `catch`
block, status `error` with the synthetic error result. -/
def recordedItem (p : WorkItem × ItemOutcome) : WorkItem :=
  match p.2 with
  | .ok r => { p.1 with status := .completed, result := some r }
  | .extractError msg =>
      { p.1 with status := .error, result := some (appErrorResult msg) }

/-- Whether the loop body reaches the success path for this outcome. -/
def isOkOutcome : ItemOutcome → Bool
  | .ok _ => true
  | .extractError _ => false

/-- Whether the outcome is a success whose result satisfies the positive
predicate (`matchStatus`). -/
def isPositiveOutcome : ItemOutcome → Bool
  | .ok r => r.matchStatus
  | .extractError _ => false

theorem runItems_items_eq_map (batch : List (WorkItem × ItemOutcome))
    (a : AgentState) (k : Nat) :
    (runItems a k batch).items = batch.map recordedItem := by
  induction batch generalizing a k with
  | nil => rfl
  | cons p rest ih =>
      obtain ⟨w, out⟩ := p
      cases out with
      | ok r => simp [runItems, recordedItem, ih]
      | extractError msg => simp [runItems, recordedItem, ih]

theorem runItems_aEnd_counts (batch : List (WorkItem × ItemOutcome))
    (a : AgentState) (k : Nat) :
    (runItems a k batch).aEnd.processedCount =
      a.processedCount + (batch.filter (fun p => isOkOutcome p.2)).length ∧
    (runItems a k batch).aEnd.candidatesFound =
      a.candidatesFound + (batch.filter (fun p => isPositiveOutcome p.2)).length := by
  induction batch generalizing a k with
  | nil => exact ⟨rfl, rfl⟩
  | cons p rest ih =>
      obtain ⟨w, out⟩ := p
      cases out with
      | ok r =>
          have := ih (successUpdate { a with currentFileName := some w.name } r) (k + 1)
          by_cases hms : r.matchStatus <;>
            simp [runItems, successUpdate, isOkOutcome, isPositiveOutcome, hms] at this ⊢ <;>
            omega
      | extractError msg =>
          have := ih { a with currentFileName := some w.name } (k + 1)
          simp [runItems, isOkOutcome, isPositiveOutcome] at this ⊢
          omega

theorem runItems_aEnd_frame (batch : List (WorkItem × ItemOutcome))
    (a : AgentState) (k : Nat) :
    (runItems a k batch).aEnd.id = a.id ∧
    (runItems a k batch).aEnd.name = a.name ∧
    (runItems a k batch).aEnd.status = a.status ∧
    (runItems a k batch).aEnd.totalAssigned = a.totalAssigned := by
  induction batch generalizing a k with
  | nil => exact ⟨rfl, rfl, rfl, rfl⟩
  | cons p rest ih =>
      obtain ⟨w, out⟩ := p
      cases out with
      | ok r =>
          simpa [runItems, successUpdate] using
            ih (successUpdate { a with currentFileName := some w.name } r) (k + 1)
      | extractError msg =>
          simpa [runItems] using ih { a with currentFileName := some w.name } (k + 1)

/-- **C4 (amended)**: in `processBatch`, the item-level record is
`recordedItem`: on the success path the item gets status `completed` with the
result; on the extraction-error path the `catch` block gives it status
`error` (not `completed`) with the synthetic error result.  The worker's
`AgentState` is updated only on the success path: the final `processedCount`
equals the number of success outcomes (error items are not counted), and
`candidatesFound` grows by exactly the number of success results whose
`matchStatus` is true. -/
theorem processBatch_item_recording (a : AgentState)
    (batch : List (WorkItem × ItemOutcome)) :
    (processBatch a batch).items = batch.map recordedItem ∧
    (processBatch a batch).finalAgent.processedCount =
      (batch.filter (fun p => isOkOutcome p.2)).length ∧
    (processBatch a batch).finalAgent.candidatesFound =
      a.candidatesFound +
        (batch.filter (fun p => isPositiveOutcome p.2)).length := by
  refine ⟨by simpa [processBatch] using runItems_items_eq_map batch _ 0, ?_, ?_⟩
  · have := (runItems_aEnd_counts batch
      { a with status := AgentStatus.working, totalAssigned := batch.length,
               processedCount := 0, progress := 0 } 0).1
    simpa [processBatch] using this
  · have := (runItems_aEnd_counts batch
      { a with status := AgentStatus.working, totalAssigned := batch.length,
               processedCount := 0, progress := 0 } 0).2
    simpa [processBatch] using this

/-- Counterexample to **C4** as stated: a single-item partition whose item
fails extraction.  The recorded item has status `error`, not `completed`,
and the worker's `processedCount` is not incremented (it stays 0, not 1). -/
theorem processBatch_error_path_cex :
    ((processBatch ⟨0, "Agent Alpha", AgentStatus.idle, 0, 0, 0, none, 0⟩
        [(⟨"f1", "resume1.pdf", FileStatus.pending, none⟩,
          ItemOutcome.extractError "boom")]).items.getD 0 default).status ≠
        FileStatus.completed ∧
    ((processBatch ⟨0, "Agent Alpha", AgentStatus.idle, 0, 0, 0, none, 0⟩
        [(⟨"f1", "resume1.pdf", FileStatus.pending, none⟩,
          ItemOutcome.extractError "boom")]).items.getD 0 default).status =
        FileStatus.error ∧
    (processBatch ⟨0, "Agent Alpha", AgentStatus.idle, 0, 0, 0, none, 0⟩
        [(⟨"f1", "resume1.pdf", FileStatus.pending, none⟩,
          ItemOutcome.extractError "boom")]).finalAgent.processedCount ≠ 1 ∧
    (processBatch ⟨0, "Agent Alpha", AgentStatus.idle, 0, 0, 0, none, 0⟩
        [(⟨"f1", "resume1.pdf", FileStatus.pending, none⟩,
          ItemOutcome.extractError "boom")]).finalAgent.processedCount = 0 := by
  decide

/-- Consistency of one published `AgentState` snapshot: `processedCount`
never exceeds `totalAssigned`, and `progress` is exactly
`processedCount / totalAssigned * 100` (which is `0` when
`totalAssigned = 0`, since rational division by zero is zero). -/
def consistentState (s : AgentState) : Prop :=
  s.processedCount ≤ s.totalAssigned ∧
    s.progress = (s.processedCount : ℚ) / (s.totalAssigned : ℚ) * 100

theorem runItems_consistent (batch : List (WorkItem × ItemOutcome))
    (a : AgentState) (k : Nat)
    (hcap : a.processedCount + batch.length ≤ a.totalAssigned)
    (hc : consistentState a) :
    (∀ s ∈ (runItems a k batch).states, consistentState s) ∧
      consistentState (runItems a k batch).aEnd := by
  induction batch generalizing a k with
  | nil => exact ⟨by simp [runItems], hc⟩
  | cons p rest ih =>
      obtain ⟨w, out⟩ := p
      have hc1 : consistentState { a with currentFileName := some w.name } := hc
      cases out with
      | ok r =>
          have hc2 : consistentState
              (successUpdate { a with currentFileName := some w.name } r) := by
            constructor
            · simp only [successUpdate]
              simp at hcap ⊢
              omega
            · simp only [successUpdate]
              push_cast
              ring
          have hcap2 : (successUpdate { a with currentFileName := some w.name }
                r).processedCount + rest.length ≤
              (successUpdate { a with currentFileName := some w.name }
                r).totalAssigned := by
            simp only [successUpdate]
            simp at hcap ⊢
            omega
          obtain ⟨hall, hend⟩ := ih _ (k + 1) hcap2 hc2
          refine ⟨?_, by simpa [runItems] using hend⟩
          intro s hs
          simp only [runItems, List.mem_cons] at hs
          rcases hs with rfl | rfl | hs
          · exact hc1
          · exact hc2
          · exact hall s hs
      | extractError msg =>
          have hcap1 : ({ a with currentFileName := some w.name } :
                AgentState).processedCount + rest.length ≤
              ({ a with currentFileName := some w.name } :
                AgentState).totalAssigned := by
            simp at hcap ⊢
            omega
          obtain ⟨hall, hend⟩ := ih _ (k + 1) hcap1 hc1
          refine ⟨?_, by simpa [runItems] using hend⟩
          intro s hs
          simp only [runItems, List.mem_cons] at hs
          rcases hs with rfl | hs
          · exact hc1
          · exact hall s hs

theorem runItems_chain (batch : List (WorkItem × ItemOutcome))
    (a : AgentState) (k : Nat) (f : AgentState → AgentState)
    (hf : ∀ s, (f s).processedCount = s.processedCount) :
    List.Chain' (fun s t => s.processedCount ≤ t.processedCount)
      (a :: (runItems a k batch).states ++ [f (runItems a k batch).aEnd]) := by
  induction batch generalizing a k with
  | nil =>
      simp only [runItems, List.nil_append]
      exact List.chain'_cons.mpr ⟨le_of_eq (hf a).symm, List.chain'_singleton _⟩
  | cons p rest ih =>
      obtain ⟨w, out⟩ := p
      cases out with
      | ok r =>
          have h2 := ih (successUpdate { a with currentFileName := some w.name } r) (k + 1)
          simp only [runItems, List.cons_append]
          refine List.chain'_cons.mpr ⟨le_refl _, List.chain'_cons.mpr ⟨?_, h2⟩⟩
          simp [successUpdate]
      | extractError msg =>
          have h1 := ih { a with currentFileName := some w.name } (k + 1)
          simp only [runItems, List.cons_append]
          exact List.chain'_cons.mpr ⟨le_refl _, h1⟩

/-- **C8 (amended)**: throughout a `processBatch` run (the per-worker loop),
every published `AgentState` snapshot satisfies
`processedCount ≤ totalAssigned` and
`progress = processedCount / totalAssigned * 100` (zero when
`totalAssigned = 0`), and `processedCount` is non-decreasing along the
sequence of published snapshots.  (The coordinator's marking of empty
partitions violates the `totalAssigned = 0 → progress = 0` part of the
original claim; see the counterexample.) -/
theorem processBatch_progress_invariant (a : AgentState)
    (batch : List (WorkItem × ItemOutcome)) :
    (∀ s ∈ (processBatch a batch).agentStates,
        s.processedCount ≤ s.totalAssigned ∧
          s.progress = (s.processedCount : ℚ) / (s.totalAssigned : ℚ) * 100) ∧
    List.Chain' (fun s t => s.processedCount ≤ t.processedCount)
      (processBatch a batch).agentStates := by
  set aInit : AgentState := { a with
    status := AgentStatus.working
    totalAssigned := batch.length
    processedCount := 0
    progress := 0 } with haInit
  have hcap : aInit.processedCount + batch.length ≤ aInit.totalAssigned := by
    simp [haInit]
  have hc : consistentState aInit := by
    constructor
    · simp [haInit]
    · simp [haInit]
  obtain ⟨hall, hend⟩ := runItems_consistent batch aInit 0 hcap hc
  constructor
  · intro s hs
    simp only [processBatch] at hs
    rcases List.mem_cons.mp hs with h | hs'
    · exact h ▸ hc
    rcases List.mem_append.mp hs' with hs2 | hs2
    · exact hall s hs2
    · have h := List.mem_singleton.mp hs2
      exact h ▸ hend
  · have := runItems_chain batch aInit 0
      (fun s => { s with status := AgentStatus.completed, currentFileName := none })
      (fun s => rfl)
    simpa [processBatch] using this

/-! ### Worker event ordering (`processBatch` loop, `src/App.tsx`) -/

/-- The event trace of a worker loop over `n` items starting at item index
`k`: each item contributes its extraction start followed by its result
recording, in partition order. -/
def eventsFrom (k : Nat) : Nat → List Ev
  | 0 => []
  | n + 1 => .beginExtract k :: .record k :: eventsFrom (k + 1) n

theorem runItems_events (batch : List (WorkItem × ItemOutcome))
    (a : AgentState) (k : Nat) :
    (runItems a k batch).events = eventsFrom k batch.length := by
  induction batch generalizing a k with
  | nil => rfl
  | cons p rest ih =>
      obtain ⟨w, out⟩ := p
      cases out with
      | ok r => simp [runItems, eventsFrom, ih]
      | extractError msg => simp [runItems, eventsFrom, ih]

theorem eventsFrom_getElem? (n k m : Nat) :
    (eventsFrom k n)[m]? =
      if m < 2 * n then
        some (if m % 2 = 0 then Ev.beginExtract (k + m / 2)
              else Ev.record (k + m / 2))
      else none := by
  induction n generalizing k m with
  | zero => simp [eventsFrom]
  | succ n ih =>
      match m with
      | 0 => simp [eventsFrom]
      | 1 =>
          simp [eventsFrom]
          omega
      | m + 2 =>
          simp only [eventsFrom, List.getElem?_cons_succ]
          rw [ih]
          by_cases hm : m < 2 * n
          · rw [if_pos hm, if_pos (show m + 2 < 2 * (n + 1) from by omega)]
            by_cases hp : m % 2 = 0
            · rw [if_pos hp, if_pos (show (m + 2) % 2 = 0 from by omega)]
              congr 2
              omega
            · rw [if_neg hp, if_neg (show ¬(m + 2) % 2 = 0 from by omega)]
              congr 2
              omega
          · rw [if_neg hm, if_neg (show ¬(m + 2 < 2 * (n + 1)) from by omega)]

/-- **C9**: within one worker, items are processed strictly in partition
order: whenever the event trace of `processBatch` shows item `k + 1`
beginning extraction at position `m`, item `k`'s result was already recorded
at some earlier position `m' < m`. -/
theorem worker_sequential_order (a : AgentState)
    (batch : List (WorkItem × ItemOutcome)) (k m : Nat)
    (h : (processBatch a batch).events[m]? = some (Ev.beginExtract (k + 1))) :
    ∃ m', m' < m ∧ (processBatch a batch).events[m']? = some (Ev.record k) := by
  have he : (processBatch a batch).events = eventsFrom 0 batch.length := by
    simpa [processBatch] using runItems_events batch _ 0
  rw [he] at h ⊢
  rw [eventsFrom_getElem? batch.length 0 m] at h
  by_cases hm : m < 2 * batch.length
  · rw [if_pos hm] at h
    have h' := Option.some.inj h
    by_cases hp : m % 2 = 0
    · rw [if_pos hp] at h'
      have hk : 0 + m / 2 = k + 1 := Ev.beginExtract.inj h'
      have hm' : m = 2 * k + 2 := by omega
      refine ⟨2 * k + 1, by omega, ?_⟩
      rw [eventsFrom_getElem? batch.length 0 (2 * k + 1),
        if_pos (show 2 * k + 1 < 2 * batch.length from by omega),
        if_neg (show ¬(2 * k + 1) % 2 = 0 from by omega)]
      congr 2
      omega
    · rw [if_neg hp] at h'
      simp at h'
  · rw [if_neg hm] at h
    simp at h

/-- Witness for C9 at a concrete input: a two-item partition; the event at
position 2 is the start of item 1's extraction, and item 0's recording
occurs earlier, at a position below 2. -/
theorem worker_sequential_order_witness :
    (processBatch ⟨0, "Agent Alpha", AgentStatus.idle, 0, 0, 0, none, 0⟩
        [(⟨"f1", "a.pdf", FileStatus.pending, none⟩, ItemOutcome.extractError "x"),
         (⟨"f2", "b.pdf", FileStatus.pending, none⟩, ItemOutcome.extractError "y")]
      ).events[2]? = some (Ev.beginExtract 1) ∧
    ∃ m', m' < 2 ∧
      (processBatch ⟨0, "Agent Alpha", AgentStatus.idle, 0, 0, 0, none, 0⟩
        [(⟨"f1", "a.pdf", FileStatus.pending, none⟩, ItemOutcome.extractError "x"),
         (⟨"f2", "b.pdf", FileStatus.pending, none⟩, ItemOutcome.extractError "y")]
      ).events[m']? = some (Ev.record 0) :=
  ⟨by decide,
   worker_sequential_order _ _ 0 2 (by decide)⟩

/-! ### The scorer call (`analyzeResume` / `makeRequestWithRetry`,
`src/services/geminiService.ts`)

```ts
const makeRequestWithRetry = async (retries = 3, delay = 2000): Promise<any> => {
  try { ... return await ai.models.generateContent({...}); }
  catch (error: any) {
    if (retries > 0 && (error.message?.includes("429") || error.message?.includes("quota"))) {
      await new Promise(resolve => setTimeout(resolve, delay));
      return makeRequestWithRetry(retries - 1, delay * 2);
    }
    throw error;
  }
};
```
The network call is abstracted as an environment `Nat → AttemptOutcome`
giving the outcome of each attempt (indexed by attempt number). -/

/-- `pat` is a leading segment of `cs` (character-by-character). -/
def charListLeads : List Char → List Char → Bool
  | [], _ => true
  | _ :: _, [] => false
  | p :: ps, c :: cs => p == c && charListLeads ps cs

/-- `pat` occurs contiguously somewhere in `s` (JS `String.includes`). -/
def charListHas : List Char → List Char → Bool
  | pat, [] => charListLeads pat []
  | pat, c :: cs => charListLeads pat (c :: cs) || charListHas pat cs

/-- JS `msg.includes(pat)`. -/
def strContainsSub (msg pat : String) : Bool :=
  charListHas pat.toList msg.toList

/-- The retry condition of `makeRequestWithRetry`: the error message
indicates a rate-limit/quota failure (`includes("429") || includes("quota")`). -/
def isRetryableMsg (msg : String) : Bool :=
  strContainsSub msg "429" || strContainsSub msg "quota"

/-- Outcome of one `generateContent` attempt: a response whose `.text()` is
`text`, or a thrown error with message `msg`. -/
inductive AttemptOutcome where
  | success (text : String)
  | failure (msg : String)
deriving Repr, DecidableEq

/-- Observable outcome of `makeRequestWithRetry`: the returned response text
or thrown error, the number of attempts made, and the list of backoff waits
(in milliseconds) performed between consecutive attempts. -/
structure RetryOut where
  result : Except String String
  attemptsUsed : Nat
  waits : List Nat
deriving Repr

/-- `makeRequestWithRetry` from `src/services/geminiService.ts`: attempt the
call; on an error whose message indicates 429/quota, if retries remain, wait
`delay` and recurse with `retries - 1` and `delay * 2`; otherwise rethrow.
`idx` indexes the attempt in the environment.  The source's default
arguments are `retries = 3`, `delay = 2000`. -/
def makeRequestWithRetry (env : Nat → AttemptOutcome) (idx retries delay : Nat) :
    RetryOut :=
  match env idx with
  | .success t => ⟨.ok t, 1, []⟩
  | .failure msg =>
    match retries with
    | 0 => ⟨.error msg, 1, []⟩
    | r + 1 =>
      if isRetryableMsg msg then
        let rest := makeRequestWithRetry env (idx + 1) r (delay * 2)
        ⟨rest.result, rest.attemptsUsed + 1, delay :: rest.waits⟩
      else ⟨.error msg, 1, []⟩

theorem makeRequestWithRetry_attempts_le (r : Nat) (env : Nat → AttemptOutcome)
    (idx d : Nat) :
    (makeRequestWithRetry env idx r d).attemptsUsed ≤ r + 1 := by
  induction r generalizing idx d with
  | zero =>
      unfold makeRequestWithRetry
      cases env idx <;> simp
  | succ r ih =>
      unfold makeRequestWithRetry
      cases env idx with
      | success t => simp
      | failure msg =>
          by_cases hr : isRetryableMsg msg
          · simp only [hr, if_true]
            have := ih (idx + 1) (d * 2)
            simpa using Nat.add_le_add_right this 1
          · simp [hr]

theorem makeRequestWithRetry_attempts_pos (env : Nat → AttemptOutcome)
    (idx r d : Nat) :
    1 ≤ (makeRequestWithRetry env idx r d).attemptsUsed := by
  unfold makeRequestWithRetry
  cases env idx with
  | success t => simp
  | failure msg =>
      cases r with
      | zero => simp
      | succ r =>
          by_cases hr : isRetryableMsg msg <;> simp [hr]

theorem makeRequestWithRetry_waits_doubling (r : Nat)
    (env : Nat → AttemptOutcome) (idx d : Nat) :
    (makeRequestWithRetry env idx r d).waits =
      (List.range (makeRequestWithRetry env idx r d).waits.length).map
        (fun i => d * 2 ^ i) := by
  induction r generalizing idx d with
  | zero =>
      unfold makeRequestWithRetry
      cases env idx <;> simp
  | succ r ih =>
      unfold makeRequestWithRetry
      cases env idx with
      | success t => simp
      | failure msg =>
          by_cases hr : isRetryableMsg msg
          · simp only [hr, if_true]
            have h := ih (idx + 1) (d * 2)
            simp only [List.length_cons, List.range_succ_eq_map, List.map_cons,
              List.map_map]
            conv_lhs => rw [h]
            congr 1
            · simp
            · congr 1
              funext i
              simp [Function.comp, pow_succ]
              ring
          · simp [hr]

/-- JS truthiness of an optional string (`apiKey || process.env.API_KEY`
followed by `if (!effectiveKey)`): an absent value and the empty string are
falsy. -/
def truthyKey : Option String → Bool
  | none => false
  | some s => !(s == "")

/-- The synthetic fallback result built in the outer `catch` of
`analyzeResume` in `src/services/geminiService.ts`. -/
def geminiFallbackResult : AnalysisResult :=
  { candidateName := "Error Processing"
    matchStatus := false
    matchScore := 0
    reason := "System Error during analysis."
    educationMatch := "None"
    nonMandatorySkillsCount := 0
    mandatorySkillsFound := []
    mandatorySkillsMissing := []
    optionalSkillsFound := []
    isAiGenerated := false
    aiGenerationReasoning := "Error" }

/-- Environment of one `analyzeResume` call: the caller-supplied API key,
the `process.env.API_KEY` value, the outcome of each network attempt, and
the result of `JSON.parse` on a response text (`none` models a parse
throw). -/
structure ScorerEnv where
  apiKey : Option String
  envApiKey : Option String
  attempts : Nat → AttemptOutcome
  parse : String → Option AnalysisResult

/-- `analyzeResume` from `src/services/geminiService.ts`: compute the
effective key (`apiKey || process.env.API_KEY`); a falsy key, a
`makeRequestWithRetry` that ultimately throws, an empty response text, or a
parse failure all land in the outer `catch`, which returns
`geminiFallbackResult`; otherwise the parsed result is returned.  The
function is total: no branch throws. -/
def analyzeResume (env : ScorerEnv) : AnalysisResult :=
  let effectiveKey := if truthyKey env.apiKey then env.apiKey else env.envApiKey
  if truthyKey effectiveKey = false then geminiFallbackResult
  else
    match (makeRequestWithRetry env.attempts 0 3 2000).result with
    | .error _ => geminiFallbackResult
    | .ok text =>
      if text == "" then geminiFallbackResult
      else
        match env.parse text with
        | none => geminiFallbackResult
        | some r => r

/-- The failure condition of one `analyzeResume` call: missing/falsy
credentials, a scorer call that still fails after retries (of any error
class), an empty response text, or an unparsable response. -/
def scoreFailureB (env : ScorerEnv) : Bool :=
  !truthyKey (if truthyKey env.apiKey then env.apiKey else env.envApiKey) ||
    (match (makeRequestWithRetry env.attempts 0 3 2000).result with
     | .error _ => true
     | .ok text => text == "" || (env.parse text).isNone)

/-- **C5**: `analyzeResume` is a total function into `AnalysisResult` (the
model has no error channel, mirroring the outer `catch` that converts every
throw to data), and on every failure mode — missing credentials, rate-limit
exhaustion, any other scorer error, empty response, or parse failure — it
returns the synthetic result with `matchStatus = false`, `matchScore = 0`
and a non-empty human-readable reason string. -/
theorem analyzeResume_failure_soundness (env : ScorerEnv)
    (h : scoreFailureB env = true) :
    analyzeResume env = geminiFallbackResult ∧
    (analyzeResume env).matchStatus = false ∧
    (analyzeResume env).matchScore = 0 ∧
    (analyzeResume env).reason ≠ "" := by
  have hmain : analyzeResume env = geminiFallbackResult := by
    unfold analyzeResume
    unfold scoreFailureB at h
    by_cases hk :
        truthyKey (if truthyKey env.apiKey then env.apiKey else env.envApiKey) = false
    · simp [hk]
    · rw [if_neg hk]
      rw [Bool.not_eq_false] at hk
      rw [hk] at h
      simp only [Bool.not_true, Bool.false_or] at h
      cases hres : (makeRequestWithRetry env.attempts 0 3 2000).result with
      | error e => rfl
      | ok text =>
          rw [hres] at h
          by_cases ht : text == ""
          · simp [ht]
          · have ht' : (text == "") = false := by simpa using ht
            simp only [ht', Bool.false_or] at h
            simp only [ht', if_false]
            cases hp : env.parse text with
            | none => rfl
            | some r =>
                rw [hp] at h
                simp at h
  refine ⟨hmain, ?_, ?_, ?_⟩ <;> rw [hmain]
  · rfl
  · rfl
  · decide

/-- Witness for C5 at a concrete input: no caller key and no system key
(missing credentials), a scorer that always fails; the synthetic fallback is
returned. -/
theorem analyzeResume_failure_soundness_witness :
    scoreFailureB
        ⟨none, none, fun _ => AttemptOutcome.failure "X", fun _ => none⟩ = true ∧
    (analyzeResume
        ⟨none, none, fun _ => AttemptOutcome.failure "X", fun _ => none⟩ =
        geminiFallbackResult ∧
      (analyzeResume
        ⟨none, none, fun _ => AttemptOutcome.failure "X", fun _ => none⟩).matchStatus = false ∧
      (analyzeResume
        ⟨none, none, fun _ => AttemptOutcome.failure "X", fun _ => none⟩).matchScore = 0 ∧
      (analyzeResume
        ⟨none, none, fun _ => AttemptOutcome.failure "X", fun _ => none⟩).reason ≠ "") :=
  ⟨rfl, analyzeResume_failure_soundness _ rfl⟩

/-- **C7**: with retry budget remaining, a failed scorer call is retried if
and only if the error message indicates the rate-limit/quota class
(`429`/`quota`); a non-retryable failure returns immediately after a single
attempt with no backoff wait, and with an exhausted budget even a retryable
failure is not retried. -/
theorem retry_iff_rate_limit (env : Nat → AttemptOutcome) (idx r d : Nat)
    (msg : String) (h : env idx = AttemptOutcome.failure msg) :
    (1 < (makeRequestWithRetry env idx (r + 1) d).attemptsUsed ↔
      isRetryableMsg msg = true) ∧
    (isRetryableMsg msg = false →
      makeRequestWithRetry env idx (r + 1) d = ⟨Except.error msg, 1, []⟩) ∧
    makeRequestWithRetry env idx 0 d = ⟨Except.error msg, 1, []⟩ := by
  refine ⟨?_, ?_, ?_⟩
  · unfold makeRequestWithRetry
    rw [h]
    by_cases hr : isRetryableMsg msg
    · simp only [hr, if_true, iff_true]
      have hpos := makeRequestWithRetry_attempts_pos env (idx + 1) r (d * 2)
      show 1 < (makeRequestWithRetry env (idx + 1) r (d * 2)).attemptsUsed + 1
      omega
    · simp [hr]
  · intro hr
    unfold makeRequestWithRetry
    rw [h]
    simp [hr]
  · unfold makeRequestWithRetry
    rw [h]

/-- Witness for C7 at a concrete input: a scorer that always throws a
non-retryable error (`"boom"` mentions neither 429 nor quota). -/
theorem retry_iff_rate_limit_witness :
    (fun _ : Nat => AttemptOutcome.failure "boom") 0 =
        AttemptOutcome.failure "boom" ∧
    ((1 < (makeRequestWithRetry (fun _ => AttemptOutcome.failure "boom") 0 (2 + 1) 2000).attemptsUsed ↔
        isRetryableMsg "boom" = true) ∧
      (isRetryableMsg "boom" = false →
        makeRequestWithRetry (fun _ => AttemptOutcome.failure "boom") 0 (2 + 1) 2000 =
          ⟨Except.error "boom", 1, []⟩) ∧
      makeRequestWithRetry (fun _ => AttemptOutcome.failure "boom") 0 0 2000 =
        ⟨Except.error "boom", 1, []⟩) :=
  ⟨rfl, retry_iff_rate_limit _ 0 2 2000 "boom" rfl⟩

/-- Concrete successful scorer result used by the retry scenario of C3. -/
def scenarioCResult : AnalysisResult :=
  { candidateName := "Jane Doe"
    matchStatus := true
    matchScore := 85
    reason := "Passed with bonus skills."
    educationMatch := "B.Tech CS"
    nonMandatorySkillsCount := 3
    mandatorySkillsFound := ["React"]
    mandatorySkillsMissing := []
    optionalSkillsFound := ["GraphQL"]
    isAiGenerated := false
    aiGenerationReasoning := "Human-written" }

/-- The scenario-C environment of C3: a valid key, the first two attempts
fail with a rate-limit error, and the third succeeds with a response that
parses to `scenarioCResult`. -/
def scenarioCEnv : ScorerEnv :=
  { apiKey := some "user-key"
    envApiKey := none
    attempts := fun i =>
      if i < 2 then AttemptOutcome.failure "429 rate limit"
      else AttemptOutcome.success "T"
    parse := fun t => if t == "T" then some scenarioCResult else none }

/-- **C3**: for every environment, a call with the source's default
`retries = 3` makes at most `1 + 3` attempts; the backoff waits always form
the doubling sequence `d, 2d, 4d, …` starting at the base delay; and in the
concrete fails-twice-then-succeeds scenario exactly 3 attempts are made,
exactly 2 backoff waits occur (2000 ms then 4000 ms), the call returns the
successful response, and `analyzeResume` ends with the successful parsed
result. -/
theorem retry_bound_and_backoff :
    (∀ (env : Nat → AttemptOutcome) (idx d : Nat),
      (makeRequestWithRetry env idx 3 d).attemptsUsed ≤ 1 + 3) ∧
    (∀ (env : Nat → AttemptOutcome) (r idx d : Nat),
      (makeRequestWithRetry env idx r d).waits =
        (List.range (makeRequestWithRetry env idx r d).waits.length).map
          (fun i => d * 2 ^ i)) ∧
    (makeRequestWithRetry scenarioCEnv.attempts 0 3 2000).attemptsUsed = 3 ∧
    (makeRequestWithRetry scenarioCEnv.attempts 0 3 2000).waits = [2000, 4000] ∧
    (makeRequestWithRetry scenarioCEnv.attempts 0 3 2000).result = Except.ok "T" ∧
    analyzeResume scenarioCEnv = scenarioCResult := by
  refine ⟨fun env idx d => makeRequestWithRetry_attempts_le 3 env idx d,
    fun env r idx d => makeRequestWithRetry_waits_doubling r env idx d,
    ?_, ?_, ?_, ?_⟩ <;> rfl

/-! ### The coordinator (`startAnalysis`, `src/App.tsx`) -/

/-- The five fixed agent display names (`AGENT_NAMES` in `src/App.tsx`). -/
def agentNames : List String :=
  ["Agent Alpha", "Agent Beta", "Agent Gamma", "Agent Delta", "Agent Epsilon"]

/-- The initial `agents` state of the App (`useState` initializer in
`src/App.tsx`). -/
def initAgents : List AgentState :=
  agentNames.enum.map fun p =>
    { id := p.1, name := p.2, status := AgentStatus.idle, progress := 0,
      totalAssigned := 0, processedCount := 0, currentFileName := none,
      candidatesFound := 0 }

/-- Drop leading whitespace characters. -/
def dropLeadingWs : List Char → List Char
  | [] => []
  | c :: cs => if c.isWhitespace then dropLeadingWs cs else c :: cs

/-- JS `jdText.trim()`: strip leading and trailing whitespace.  (Defined by
structural recursion so that concrete runs evaluate inside the kernel.) -/
def jsTrim (s : String) : String :=
  String.mk ((dropLeadingWs (dropLeadingWs s.toList).reverse).reverse)

/-- Top-level App state relevant to a batch run. -/
structure AppState where
  files : List WorkItem
  jdText : String
  isProcessing : Bool
  agents : List AgentState
deriving Repr, DecidableEq

/-- Merge the per-worker final item records back into the file list by id
(the `setFiles(prev => prev.map(f => f.id === fileItem.id ? ... : f))`
updates performed by `processBatch`). -/
def updateFiles (files processed : List WorkItem) : List WorkItem :=
  files.map fun f => (processed.find? fun p => p.id == f.id).getD f

/-- Pair each item of a partition with its environment-supplied outcome
(`out k` is the outcome for item `k` of the partition). -/
def pairOutcomes (batch : List WorkItem) (out : Nat → ItemOutcome) :
    List (WorkItem × ItemOutcome) :=
  batch.enum.map fun p => (p.2, out p.1)

/-- Effect of coordinator slot `i` on its own agent entry
(`batches.map((batch, index) => ...)` in `startAnalysis`): an empty
partition is immediately marked `completed` with `progress := 100` and no
worker is launched (nothing else changes — in particular `totalAssigned`
keeps its previous value); a non-empty partition is handed to
`processBatch`. -/
def agentEffect (batches : List (List WorkItem))
    (out : Nat → Nat → ItemOutcome) (i : Nat) (a : AgentState) : AgentState :=
  let batch := batches.getD i []
  if batch.length = 0 then
    { a with status := AgentStatus.completed, progress := 100 }
  else
    (processBatch a (pairOutcomes batch (out i))).finalAgent

/-- One coordinator slot of `startAnalysis`: update agent `i` via
`agentEffect`; for a non-empty partition additionally fold the worker's
final item records into `files` (the records are exactly
`map recordedItem`, by `runItems_items_eq_map`, and do not depend on the
agent argument). -/
def coordStep (batches : List (List WorkItem))
    (out : Nat → Nat → ItemOutcome) (st : AppState) (i : Nat) : AppState :=
  let batch := batches.getD i []
  if batch.length = 0 then
    { st with agents := st.agents.map fun a =>
        if a.id = i then agentEffect batches out i a else a }
  else
    { st with
      agents := st.agents.map fun a =>
        if a.id = i then agentEffect batches out i a else a,
      files := updateFiles st.files
        ((pairOutcomes batch (out i)).map recordedItem) }

/-- `startAnalysis` from `src/App.tsx`.  The guards return immediately
(before `setIsProcessing(true)`) when the file list is empty or the job
description is blank; otherwise the files are distributed over 5 partitions
and every slot is processed (concurrently in the source; because partition
assignment is disjoint and each slot writes only its own agent entry and its
own files, the net state update equals this sequential composition), after
which `isProcessing` is reset to false. -/
def startAnalysis (s : AppState) (out : Nat → Nat → ItemOutcome) : AppState :=
  if s.files.length = 0 then s
  else if jsTrim s.jdText = "" then s
  else
    let batches := distributeFiles s.files 5
    let s1 := (List.range 5).foldl (coordStep batches out)
      { s with isProcessing := true }
    { s1 with isProcessing := false }

/-- **C10**: if the uploaded file list is empty or the job description is
blank (empty or whitespace-only), `startAnalysis` returns with the state
unchanged: no agent is launched, no file status changes, and `isProcessing`
is never left set. -/
theorem startAnalysis_guard (s : AppState) (out : Nat → Nat → ItemOutcome)
    (h : s.files = [] ∨ jsTrim s.jdText = "") :
    startAnalysis s out = s := by
  unfold startAnalysis
  rcases h with h | h
  · simp [h]
  · by_cases hf : s.files.length = 0
    · simp [hf]
    · simp [hf, h]

/-- Witness for C10 at a concrete input: an empty file list. -/
theorem startAnalysis_guard_witness :
    ((⟨[], "some job", false, initAgents⟩ : AppState).files = [] ∨
      jsTrim (⟨[], "some job", false, initAgents⟩ : AppState).jdText = "") ∧
    startAnalysis ⟨[], "some job", false, initAgents⟩
        (fun _ _ => ItemOutcome.extractError "e") =
      ⟨[], "some job", false, initAgents⟩ :=
  ⟨Or.inl rfl, startAnalysis_guard _ _ (Or.inl rfl)⟩

theorem processBatch_finalAgent_id (a : AgentState)
    (batch : List (WorkItem × ItemOutcome)) :
    (processBatch a batch).finalAgent.id = a.id := by
  simpa [processBatch] using (runItems_aEnd_frame batch _ 0).1

theorem agentEffect_id (batches : List (List WorkItem))
    (out : Nat → Nat → ItemOutcome) (i : Nat) (a : AgentState) :
    (agentEffect batches out i a).id = a.id := by
  simp only [agentEffect]
  split
  · rfl
  · exact processBatch_finalAgent_id a _

theorem coordStep_agents (batches : List (List WorkItem))
    (out : Nat → Nat → ItemOutcome) (st : AppState) (i : Nat) :
    (coordStep batches out st i).agents =
      st.agents.map fun a =>
        if a.id = i then agentEffect batches out i a else a := by
  simp only [coordStep]
  split <;> rfl

theorem foldl_coordStep_agents (batches : List (List WorkItem))
    (out : Nat → Nat → ItemOutcome) (is : List Nat) (st : AppState) :
    (is.foldl (coordStep batches out) st).agents =
      is.foldl
        (fun ags i => ags.map fun a =>
          if a.id = i then agentEffect batches out i a else a)
        st.agents := by
  induction is generalizing st with
  | nil => rfl
  | cons i is ih =>
      rw [List.foldl_cons, List.foldl_cons, ih, coordStep_agents]

theorem foldl_map_update_getElem? (e : Nat → AgentState → AgentState)
    (is : List Nat) :
    ∀ (ags : List AgentState) (j : Nat) (a : AgentState), ags[j]? = some a →
      (is.foldl
        (fun ags i => ags.map fun x => if x.id = i then e i x else x)
        ags)[j]? =
        some (is.foldl (fun x i => if x.id = i then e i x else x) a) := by
  induction is with
  | nil =>
      intro ags j a ha
      simpa using ha
  | cons i is ih =>
      intro ags j a ha
      rw [List.foldl_cons, List.foldl_cons]
      apply ih
      rw [List.getElem?_map, ha]
      rfl

theorem foldl_update_skip (e : Nat → AgentState → AgentState) :
    ∀ (is : List Nat) (x : AgentState), x.id ∉ is →
      is.foldl (fun x i => if x.id = i then e i x else x) x = x := by
  intro is
  induction is with
  | nil =>
      intro x _
      rfl
  | cons i is ih =>
      intro x hx
      rw [List.foldl_cons,
        if_neg (by intro h; exact hx (by rw [h]; exact List.mem_cons_self i is))]
      exact ih x fun hm => hx (List.mem_cons_of_mem i hm)

theorem foldl_update_hit (e : Nat → AgentState → AgentState)
    (hid : ∀ i a, (e i a).id = a.id) :
    ∀ (is : List Nat), is.Nodup → ∀ (a : AgentState) (j : Nat),
      a.id = j → j ∈ is →
      is.foldl (fun x i => if x.id = i then e i x else x) a = e j a := by
  intro is
  induction is with
  | nil =>
      intro _ a j _ hm
      simp at hm
  | cons i is ih =>
      intro hnd a j hj hm
      rw [List.foldl_cons]
      by_cases hij : j = i
      · subst hij
        rw [if_pos hj]
        have hnotin : (e j a).id ∉ is := by
          rw [hid, hj]
          exact (List.nodup_cons.mp hnd).1
        exact foldl_update_skip e is _ hnotin
      · rw [if_neg (by rw [hj]; exact hij)]
        refine ih (List.nodup_cons.mp hnd).2 a j hj ?_
        rcases List.mem_cons.mp hm with h | h
        · exact absurd h hij
        · exact h

/-- **C6 (amended)**: in a run that actually starts (non-empty file list,
non-blank job description), every empty partition's agent is immediately
marked `completed` with `progress = 100` and no worker is launched for it;
`totalAssigned` is left at its previous value, which is 0 when the run
starts from the initial agent state.  (With 0 documents, `startAnalysis`
returns early at the guard and marks nothing; the original claim's
0-document scenario does not occur — see the counterexample.) -/
theorem coordinator_empty_partition (files : List WorkItem) (jd : String)
    (out : Nat → Nat → ItemOutcome) (j : Nat)
    (hf : files ≠ []) (hjd : ¬jsTrim jd = "") (hj : j < 5)
    (hempty : (distributeFiles files 5).getD j [] = []) :
    (startAnalysis ⟨files, jd, false, initAgents⟩ out).agents[j]? =
      some { initAgents.getD j default with
              status := AgentStatus.completed, progress := 100 } ∧
    (initAgents.getD j default).totalAssigned = 0 := by
  constructor
  · have hflen : ¬(files.length = 0) := by
      simpa [List.length_eq_zero] using hf
    unfold startAnalysis
    rw [if_neg (by simpa using hflen), if_neg (by simpa using hjd)]
    have hproj :
        (({ (List.range 5).foldl
              (coordStep (distributeFiles files 5) out)
              { files := files, jdText := jd, isProcessing := true,
                agents := initAgents } with
            isProcessing := false }) : AppState).agents =
          ((List.range 5).foldl (coordStep (distributeFiles files 5) out)
            { files := files, jdText := jd, isProcessing := true,
              agents := initAgents }).agents := rfl
    rw [hproj, foldl_coordStep_agents]
    have hsome : initAgents[j]? = some (initAgents.getD j default) := by
      interval_cases j <;> decide
    have haid : (initAgents.getD j default).id = j := by
      interval_cases j <;> decide
    rw [foldl_map_update_getElem?
      (agentEffect (distributeFiles files 5) out) (List.range 5)
      initAgents j _ hsome]
    rw [foldl_update_hit (agentEffect (distributeFiles files 5) out)
      (agentEffect_id (distributeFiles files 5) out)
      (List.range 5) (List.nodup_range 5)
      (initAgents.getD j default) j haid (List.mem_range.mpr hj)]
    unfold agentEffect
    rw [hempty]
    rfl
  · interval_cases j <;> decide

/-- Counterexample to **C6** as stated: with 0 documents, `startAnalysis`
returns early at its guard (`files.length === 0`), so no AgentState is
marked at all — agent 0 stays `idle` with `progress = 0`, contradicting
"all 5 AgentStates are immediately 'completed' with progress = 100". -/
theorem startAnalysis_empty_docs_cex :
    ((startAnalysis ⟨[], "Senior React Developer", false, initAgents⟩
        (fun _ _ => ItemOutcome.extractError "e")).agents.getD 0
          default).status = AgentStatus.idle ∧
    ((startAnalysis ⟨[], "Senior React Developer", false, initAgents⟩
        (fun _ _ => ItemOutcome.extractError "e")).agents.getD 0
          default).status ≠ AgentStatus.completed ∧
    ((startAnalysis ⟨[], "Senior React Developer", false, initAgents⟩
        (fun _ _ => ItemOutcome.extractError "e")).agents.getD 0
          default).progress ≠ 100 := by
  decide

/-- Witness for the amended C6 at a concrete input: one file, five workers,
partition 1 is empty; its agent ends `completed` with `progress = 100` and
`totalAssigned = 0`. -/
theorem coordinator_empty_partition_witness :
    (([⟨"f1", "resume.pdf", FileStatus.pending, none⟩] : List WorkItem) ≠ [] ∧
      ¬(jsTrim "Job description" = "") ∧ (1 : Nat) < 5 ∧
      (distributeFiles
        ([⟨"f1", "resume.pdf", FileStatus.pending, none⟩] : List WorkItem)
        5).getD 1 [] = []) ∧
    ((startAnalysis
        ⟨[⟨"f1", "resume.pdf", FileStatus.pending, none⟩],
          "Job description", false, initAgents⟩
        (fun _ _ => ItemOutcome.extractError "e")).agents[1]? =
      some { initAgents.getD 1 default with
              status := AgentStatus.completed, progress := 100 } ∧
      (initAgents.getD 1 default).totalAssigned = 0) :=
  ⟨⟨by decide, by decide, by decide, by decide⟩,
    coordinator_empty_partition _ _ _ 1 (by decide) (by decide) (by decide)
      (by decide)⟩

/-- Counterexample to **C8** as stated: in a started run with 1 document and
5 workers, the coordinator marks empty partition 1's agent with
`progress = 100` while its `totalAssigned` is 0 — so "progress is 0
whenever totalAssigned = 0" fails during (and at the end of) a batch run. -/
theorem progress_empty_partition_cex :
    ((startAnalysis
        ⟨[⟨"f1", "resume.pdf", FileStatus.pending, none⟩],
          "Job description", false, initAgents⟩
        (fun _ _ => ItemOutcome.extractError "e")).agents.getD 1
          default).totalAssigned = 0 ∧
    ((startAnalysis
        ⟨[⟨"f1", "resume.pdf", FileStatus.pending, none⟩],
          "Job description", false, initAgents⟩
        (fun _ _ => ItemOutcome.extractError "e")).agents.getD 1
          default).progress = 100 ∧
    ((startAnalysis
        ⟨[⟨"f1", "resume.pdf", FileStatus.pending, none⟩],
          "Job description", false, initAgents⟩
        (fun _ _ => ItemOutcome.extractError "e")).agents.getD 1
          default).progress ≠ 0 := by
  decide

end ResumeAI
